import Mathlib

/-!
Verification of the `polars_utils` repository: a shallow embedding of
`src/polars_utils/src/mappings/move_col.py` and
`src/polars_utils/src/mappings/map_col.py`, followed by theorems that settle
the specification claims about them.

The dataframe is modelled as an ordered association list of named columns.
Python/polars primitives used by the two source functions are embedded with
their actual semantics:
  * `list.pop(i)` / `list.insert(i, x)` with Python's negative-index and
    clamping behaviour (`pyPop`, `pyInsert`);
  * `DataFrame.select(names)` which projects columns by name in order;
  * `DataFrame.with_columns(series)` which overwrites an existing column in
    place (keeping its position) or appends a new one at the end;
  * `Expr.map_dict(d, default)` = `d.get(v, default)` per value;
  * `Expr.apply(f)` / `Series.map_elements(f)` = `f` per value;
  * Python sequence indexing `res[i]` (`pyIndex`), raising `IndexError` past
    the end and `TypeError` on non-sequences;
  * `Expr.alias(name)` which requires a string name and raises `TypeError`
    when handed a list.

Python exceptions are modelled by `Err`; a Python function that can either
return a dataframe, fall off the end (returning `None`), or raise, returns a
`PyResult`.
-/

namespace PolarsUtils

/-- A Python/polars cell value: integers, strings, `None`, sequences
(lists/tuples), and polars structs (as produced by `pl.struct`). -/
inductive Val where
  | int : Int → Val
  | str : String → Val
  | vnone : Val
  | list : List Val → Val
  | struct : List (String × Val) → Val

mutual

/-- Python `==` on embedded values (used by `dict.get`): structural
equality on ints, strings, `None`, sequences and structs. -/
def valEq : Val → Val → Bool
  | .int a, .int b => a == b
  | .str a, .str b => a == b
  | .vnone, .vnone => true
  | .list xs, .list ys => valListEq xs ys
  | .struct xs, .struct ys => valStructEq xs ys
  | _, _ => false

/-- Elementwise `valEq` on sequences of equal length. -/
def valListEq : List Val → List Val → Bool
  | [], [] => true
  | x :: xs, y :: ys => valEq x y && valListEq xs ys
  | _, _ => false

/-- Fieldwise `valEq` on struct fields (names and values, in order). -/
def valStructEq : List (String × Val) → List (String × Val) → Bool
  | [], [] => true
  | (n, x) :: xs, (m, y) :: ys => n == m && valEq x y && valStructEq xs ys
  | _, _ => false

end

/-- Python `d.get(k, default)`: a dict is embedded as an association list of
key/value pairs (Python dict keys are unique; first match is the entry). -/
def dictGet (d : List (Val × Val)) (k : Val) (default : Val) : Val :=
  match d.find? (fun p => valEq p.1 k) with
  | some p => p.2
  | none => default

/-- A Python exception, as raised by the embedded code paths. -/
inductive Err where
  /-- The explicit `ValueError` raised by `map_col` (the spec's
  `InvalidArgument`). -/
  | valueError
  /-- A `TypeError` from the host library (e.g. `alias` given a list, or
  indexing a non-sequence). -/
  | typeError
  /-- An `IndexError` from Python sequence indexing or `list.pop`. -/
  | indexError
  /-- The `NotImplementedError` raised by `_map_ntom_function`. -/
  | notImplementedError
  /-- polars' `ColumnNotFoundError` when a named column does not exist. -/
  | columnNotFound
  deriving DecidableEq

/-- A dataframe: an ordered sequence of named columns. -/
structure Frame where
  cols : List (String × List Val)

/-- The column names, in order (`df.columns`). -/
def Frame.names (F : Frame) : List String := F.cols.map Prod.fst

/-- Number of columns. -/
def Frame.ncols (F : Frame) : Nat := F.cols.length

/-- Row count: the length of the first column (0 for a frame with no
columns); well-formed frames have all columns of this length. -/
def Frame.height (F : Frame) : Nat :=
  match F.cols with
  | [] => 0
  | c :: _ => c.2.length

/-- Frame invariant inherited from polars: column names are unique and all
columns have the same length. -/
def Frame.WF (F : Frame) : Prop :=
  F.names.Nodup ∧ ∀ c ∈ F.cols, c.2.length = F.height

instance (F : Frame) : Decidable F.WF := by
  unfold Frame.WF; infer_instance

/-- Lookup of a named column in a raw column list (first match). -/
def findCol (cols : List (String × List Val)) (n : String) : Option (List Val) :=
  (cols.find? (fun c => c.1 == n)).map Prod.snd

/-- Data of the column named `n` (first matching column), if present. -/
def Frame.getCol (F : Frame) (n : String) : Option (List Val) :=
  findCol F.cols n

/-- `df.select(names)`: project the named columns, in the given order. -/
def Frame.select (F : Frame) (names : List String) : Frame :=
  ⟨names.filterMap (fun n => (F.getCol n).map (fun d => (n, d)))⟩

/-- `df.with_columns(series)` for a single series: replace the column in
place when the name exists, else append it at the end. -/
def Frame.withColumn (F : Frame) (name : String) (data : List Val) : Frame :=
  if name ∈ F.names then
    ⟨F.cols.map (fun c => if c.1 = name then (name, data) else c)⟩
  else
    ⟨F.cols ++ [(name, data)]⟩

/-- Result of calling one of the embedded Python functions: a returned
dataframe, a bare `None` return (falling off the end of the function), or a
raised exception. -/
inductive PyResult where
  | frame : Frame → PyResult
  | noneVal : PyResult
  | raised : Err → PyResult

/-- The effective index of a Python list operation on a list of length
`len`: negative indices are offset by the length. -/
def pyEffIndex (len : Nat) (i : Int) : Int :=
  if i < 0 then i + len else i

/-- Python `list.pop(i)`: negative `i` is offset by the length; an effective
index outside `[0, len)` raises `IndexError`; otherwise the element is
removed and returned together with the remaining list. -/
def pyPop (xs : List α) (i : Int) : Except Err (α × List α) :=
  if pyEffIndex xs.length i < 0 then .error .indexError
  else
    match xs.drop (pyEffIndex xs.length i).toNat with
    | [] => .error .indexError
    | y :: rest => .ok (y, xs.take (pyEffIndex xs.length i).toNat ++ rest)

/-- Python `list.insert(i, x)`: negative `i` is offset by the length, then
the effective index is clamped into `[0, len]`; never raises. -/
def pyInsert (xs : List α) (i : Int) (x : α) : List α :=
  xs.take (min (pyEffIndex xs.length i).toNat xs.length) ++
    x :: xs.drop (min (pyEffIndex xs.length i).toNat xs.length)

/-- Embedding of `move_col` (move_col.py): pop the name at `col_from_id`
from `df.columns`, insert it at `col_to_id`, and `select` the result. -/
def move_col (df : Frame) (col_from_id : Int) (col_to_id : Int) : PyResult :=
  let columns := df.names
  match pyPop columns col_from_id with
  | .error e => .raised e
  | .ok (last_col, popped) => .frame (df.select (pyInsert popped col_to_id last_col))

/-- A `map_col` column argument: either a single column name or a list of
column names (`Union[str, List[str]]`). -/
inductive ColSpec where
  | str : String → ColSpec
  | list : List String → ColSpec

/-- The `mapping` argument of `map_col`: a dictionary, a callable (a pure
function embedded as `Val → Val`), or any other Python value — one that is
neither a `dict` nor callable. -/
inductive Rule where
  | dict : List (Val × Val) → Rule
  | fn : (Val → Val) → Rule
  | other : Rule

/-- Python sequence indexing `res[i]` (`i ≥ 0`): element `i` of a sequence,
`IndexError` past the end, a one-character string for strings, and
`TypeError` for non-sequence values. -/
def pyIndex : Val → Nat → Except Err Val
  | .list xs, i =>
    match xs.drop i with
    | [] => .error .indexError
    | y :: _ => .ok y
  | .str s, i =>
    match s.toList.drop i with
    | [] => .error .indexError
    | ch :: _ => .ok (.str (String.mk [ch]))
  | _, _ => .error .typeError

/-- The list comprehension `[g res for res in results]`: evaluates left to
right, propagating the first raised exception. -/
def exceptMap (g : Val → Except Err Val) : List Val → Except Err (List Val)
  | [] => .ok []
  | r :: rs =>
    match g r with
    | .error e => .error e
    | .ok v =>
      match exceptMap g rs with
      | .error e => .error e
      | .ok vs => .ok (v :: vs)

/-- Embedding of `_map_col_dict`:
`df.with_columns(pl.col(c).map_dict(D, default=default).alias(new_col_name))`.
`alias` requires a string name, so a list `new_col_name` raises `TypeError`
while the expression is being built, before any column is read. -/
def map_col_dict (df : Frame) (col_name : String) (new_col_name : ColSpec)
    (dictionary : List (Val × Val)) (default : Val) : PyResult :=
  match new_col_name with
  | .list _ => .raised .typeError
  | .str t =>
    match df.getCol col_name with
    | none => .raised .columnNotFound
    | some data => .frame (df.withColumn t (data.map (fun v => dictGet dictionary v default)))

/-- Embedding of `_map_1to1_function`:
`df.with_columns(pl.col(col_name).apply(function).alias(new_col_name))`. -/
def map_1to1_function (df : Frame) (col_name new_col_name : String) (function : Val → Val) :
    PyResult :=
  match df.getCol col_name with
  | none => .raised .columnNotFound
  | some data => .frame (df.withColumn new_col_name (data.map function))

/-- The dict comprehension of `_map_1ton_function`:
`{new_col_names[i]: [res[i] for res in results] for i in range(len(new_col_names))}`,
iterating the target index `i` in the outer loop and the rows in the inner
one, propagating the first raised exception. -/
def buildCols (results : List Val) : List String → Nat → Except Err (List (String × List Val))
  | [], _ => .ok []
  | t :: rest, i =>
    match exceptMap (fun r => pyIndex r i) results with
    | .error e => .error e
    | .ok col =>
      match buildCols results rest (i + 1) with
      | .error e => .error e
      | .ok tail => .ok ((t, col) :: tail)

/-- Embedding of `_map_1ton_function`: apply `function` to each value of the
source column, then unpack result index `i` into target column `i` and add
all the new series with `with_columns`. -/
def map_1ton_function (df : Frame) (col_name : String) (new_col_names : List String)
    (function : Val → Val) : PyResult :=
  match df.getCol col_name with
  | none => .raised .columnNotFound
  | some data =>
    match buildCols (data.map function) new_col_names 0 with
    | .error e => .raised e
    | .ok newCols => .frame (newCols.foldl (fun F p => F.withColumn p.1 p.2) df)

/-- Row `i` of a column, `None`-padded past the end (well-formed frames never
reach the padding). -/
def pyvalAt (xs : List Val) (i : Nat) : Val :=
  match xs.drop i with
  | [] => .vnone
  | y :: _ => y

/-- Embedding of `_map_nto1_function`:
`df.with_columns(pl.struct(col_names).apply(function).alias(new_col_name))`:
pack the named columns row-wise into structs, apply `function` per row. -/
def map_nto1_function (df : Frame) (col_names : List String) (new_col_name : String)
    (function : Val → Val) : PyResult :=
  if col_names.all (fun n => (df.getCol n).isSome) then
    let rows := (List.range df.height).map (fun i =>
      Val.struct (col_names.map (fun n => (n, pyvalAt ((df.getCol n).getD []) i))))
    .frame (df.withColumn new_col_name (rows.map function))
  else .raised .columnNotFound

/-- Embedding of `_map_ntom_function`: `raise NotImplementedError`. -/
def map_ntom_function (_df : Frame) (_col_names : List String) (_new_col_names : List String)
    (_function : Val → Val) : PyResult :=
  .raised .notImplementedError

/-- Embedding of `map_col` (map_col.py): dispatch on the kind of `mapping`
(`isinstance(mapping, dict)` / `callable(mapping)`) and on the shapes of
`map_from` / `map_to` (`isinstance(_, str)` / `isinstance(_, list)`). A
`mapping` that is neither a dict nor callable matches no branch so the
function falls off the end, returning `None`. -/
def map_col (df : Frame) (map_from map_to : ColSpec) (mapping : Rule) (default : Val) :
    PyResult :=
  match mapping with
  | .dict D =>
    match map_from with
    | .list _ => .raised .valueError
    | .str c => map_col_dict df c map_to D default
  | .fn f =>
    match map_from, map_to with
    | .str c, .str t => map_1to1_function df c t f
    | .str c, .list ts => map_1ton_function df c ts f
    | .list cs, .str t => map_nto1_function df cs t f
    | .list cs, .list ts => map_ntom_function df cs ts f
  | .other => .noneVal

/-- Whether a value is a sequence (`list`/tuple). -/
def Val.isList : Val → Bool
  | .list _ => true
  | _ => false

/-- Length of a sequence value (0 on non-sequences). -/
def Val.listLen : Val → Nat
  | .list xs => xs.length
  | _ => 0

/-! ### Concrete frames used by witnesses and counterexamples -/

/-- The 4-column frame `[A, B, C, D]` used to witness C1 (the spec's own
example). -/
def frameC1 : Frame :=
  ⟨[("A", [Val.int 1]), ("B", [Val.int 2]), ("C", [Val.int 3]), ("D", [Val.int 4])]⟩

/-- A 1-column frame with column `a = [1, 3]`, used to witness C2. -/
def frameC2 : Frame := ⟨[("a", [Val.int 1, Val.int 3])]⟩

/-- A frame that already has a column `b` before column `a`, used in the C2
counterexample. -/
def frameC2ce : Frame := ⟨[("b", [Val.int 5]), ("a", [Val.int 1])]⟩

/-- A 1-column frame with column `a = [1]`, used for C3. -/
def frameC3 : Frame := ⟨[("a", [Val.int 1])]⟩

/-- The 4-column frame used for C4. -/
def frameC4 : Frame :=
  ⟨[("A", [Val.int 1]), ("B", [Val.int 2]), ("C", [Val.int 3]), ("D", [Val.int 4])]⟩

/-- A 1-column frame used in the C5 counterexample. -/
def frameC5 : Frame := ⟨[("a", [Val.int 1])]⟩

/-- A 1-column frame used in the C6 counterexample. -/
def frameC6 : Frame := ⟨[("a", [Val.int 1])]⟩

/-- The 4-column frame used to witness C9. -/
def frameC9 : Frame :=
  ⟨[("A", [Val.int 1]), ("B", [Val.int 2]), ("C", [Val.int 3]), ("D", [Val.int 4])]⟩

/-- A 1-column frame with column `a = [1, 2]`, used to witness C10. -/
def frameC10 : Frame := ⟨[("a", [Val.int 1, Val.int 2])]⟩

/-! ### Basic lemmas about the frame operations -/

theorem Frame.length_names (F : Frame) : F.names.length = F.ncols := by
  simp [Frame.names, Frame.ncols]

theorem findCol_cons (c : String × List Val) (cols : List (String × List Val)) (n : String) :
    findCol (c :: cols) n = if c.1 = n then some c.2 else findCol cols n := by
  by_cases h : c.1 = n <;> simp [findCol, List.find?_cons, h]

theorem findCol_isSome_of_mem {cols : List (String × List Val)} {n : String}
    (h : n ∈ cols.map Prod.fst) : ∃ d, findCol cols n = some d := by
  induction cols with
  | nil => cases h
  | cons c rest ih =>
    by_cases hcn : c.1 = n
    · exact ⟨c.2, by simp [findCol_cons, hcn]⟩
    · have h' : n ∈ rest.map Prod.fst := by
        rw [List.map_cons] at h
        rcases List.mem_cons.mp h with h0 | h0
        · exact absurd h0.symm hcn
        · exact h0
      obtain ⟨d, hd⟩ := ih h'
      exact ⟨d, by simp [findCol_cons, hcn, hd]⟩

theorem Frame.getCol_isSome_of_mem (F : Frame) {n : String} (h : n ∈ F.names) :
    ∃ d, F.getCol n = some d :=
  findCol_isSome_of_mem h

theorem Frame.length_getCol_of_WF {F : Frame} (hwf : F.WF) {n : String} {d : List Val}
    (h : F.getCol n = some d) : d.length = F.height := by
  unfold Frame.getCol findCol at h
  rcases Option.map_eq_some'.mp h with ⟨p, hp, rfl⟩
  exact hwf.2 p (List.mem_of_find?_eq_some hp)

theorem findCol_replace_self (cols : List (String × List Val)) (t : String) (data : List Val)
    (h : t ∈ cols.map Prod.fst) :
    findCol (cols.map (fun c => if c.1 = t then (t, data) else c)) t = some data := by
  induction cols with
  | nil => cases h
  | cons c rest ih =>
    by_cases hct : c.1 = t
    · simp [findCol_cons, hct]
    · have h' : t ∈ rest.map Prod.fst := by
        rw [List.map_cons] at h
        rcases List.mem_cons.mp h with h0 | h0
        · exact absurd h0.symm hct
        · exact h0
      simp [findCol_cons, hct, ih h']

theorem findCol_append_self (cols : List (String × List Val)) (t : String) (data : List Val)
    (h : t ∉ cols.map Prod.fst) : findCol (cols ++ [(t, data)]) t = some data := by
  induction cols with
  | nil => simp [findCol_cons]
  | cons c rest ih =>
    have hct : ¬ c.1 = t := fun h0 => h (by simp [h0])
    have h' : t ∉ rest.map Prod.fst := fun h0 => h (by simp [h0])
    simp [findCol_cons, hct, ih h']

theorem findCol_replace_ne (cols : List (String × List Val)) (t : String) (data : List Val)
    {c : String} (hne : c ≠ t) :
    findCol (cols.map (fun e => if e.1 = t then (t, data) else e)) c = findCol cols c := by
  induction cols with
  | nil => rfl
  | cons e rest ih =>
    by_cases het : e.1 = t
    · have h1 : ¬ (t = c) := fun h => hne h.symm
      have h2 : ¬ (e.1 = c) := by rw [het]; exact h1
      simp [findCol_cons, het, h1, h2, ih]
    · by_cases hec : e.1 = c
      · simp [findCol_cons, het, hec, hne]
      · simp [findCol_cons, het, hec, ih]

theorem findCol_append_ne (cols : List (String × List Val)) (t : String) (data : List Val)
    {c : String} (hne : c ≠ t) : findCol (cols ++ [(t, data)]) c = findCol cols c := by
  induction cols with
  | nil =>
    have h1 : ¬ (t = c) := fun h => hne h.symm
    simp [findCol_cons, h1, findCol]
  | cons e rest ih =>
    by_cases hec : e.1 = c
    · simp [findCol_cons, hec]
    · simp [findCol_cons, hec, ih]

theorem Frame.getCol_withColumn_self (F : Frame) (t : String) (data : List Val) :
    (F.withColumn t data).getCol t = some data := by
  unfold Frame.withColumn
  by_cases hmem : t ∈ F.names
  · simpa only [hmem, if_pos] using findCol_replace_self F.cols t data hmem
  · simpa only [hmem, if_neg, not_false_iff] using findCol_append_self F.cols t data hmem

theorem Frame.getCol_withColumn_ne (F : Frame) (t : String) (data : List Val) {c : String}
    (hne : c ≠ t) : (F.withColumn t data).getCol c = F.getCol c := by
  unfold Frame.withColumn
  by_cases hmem : t ∈ F.names
  · simpa only [hmem, if_pos] using findCol_replace_ne F.cols t data hne
  · simpa only [hmem, if_neg, not_false_iff] using findCol_append_ne F.cols t data hne

theorem Frame.names_withColumn (F : Frame) (t : String) (data : List Val) :
    (F.withColumn t data).names = if t ∈ F.names then F.names else F.names ++ [t] := by
  unfold Frame.withColumn
  by_cases hmem : t ∈ F.names
  · simp only [hmem, if_pos]
    unfold Frame.names
    rw [List.map_map]
    refine List.map_congr_left (fun c _ => ?_)
    by_cases hct : c.1 = t
    · simp [Function.comp, hct]
    · simp [Function.comp, hct]
  · simp only [hmem, if_neg, not_false_iff]
    show List.map Prod.fst (F.cols ++ [(t, data)]) = List.map Prod.fst F.cols ++ [t]
    simp

theorem Frame.height_withColumn (F : Frame) (t : String) {data : List Val}
    (hd : data.length = F.height) : (F.withColumn t data).height = F.height := by
  obtain ⟨cols⟩ := F
  unfold Frame.withColumn
  by_cases hmem : t ∈ (Frame.mk cols).names
  · simp only [hmem, if_pos]
    cases cols with
    | nil => simp [Frame.names] at hmem
    | cons c rest =>
      by_cases hct : c.1 = t
      · simpa [Frame.height, hct] using hd
      · simp [Frame.height, hct]
  · simp only [hmem, if_neg, not_false_iff]
    cases cols with
    | nil => simpa [Frame.height] using hd
    | cons c rest => simp [Frame.height]

theorem Frame.select_cols (F : Frame) (ns : List String) (h : ∀ n ∈ ns, n ∈ F.names) :
    (F.select ns).cols = ns.map (fun n => (n, (F.getCol n).getD [])) := by
  show ns.filterMap _ = _
  induction ns with
  | nil => rfl
  | cons n rest ih =>
    obtain ⟨d, hd⟩ := F.getCol_isSome_of_mem (h n (List.mem_cons_self n rest))
    simp only [List.filterMap_cons, hd, Option.map_some', List.map_cons, Option.getD_some]
    exact congrArg _ (ih fun m hm => h m (List.mem_cons_of_mem n hm))

theorem Frame.names_select (F : Frame) (ns : List String) (h : ∀ n ∈ ns, n ∈ F.names) :
    (F.select ns).names = ns := by
  show List.map Prod.fst (F.select ns).cols = ns
  rw [Frame.select_cols F ns h, List.map_map]
  exact (List.map_congr_left (fun a _ => rfl)).trans (List.map_id ns)

theorem findCol_map_pair (g : String → List Val) (ns : List String) (n : String) :
    findCol (ns.map (fun m => (m, g m))) n = if n ∈ ns then some (g n) else none := by
  induction ns with
  | nil => simp [findCol]
  | cons m rest ih =>
    by_cases hmn : m = n
    · simp [findCol_cons, hmn]
    · have h' : ¬ (n = m) := fun h => hmn h.symm
      simp [findCol_cons, hmn, h', ih]

theorem Frame.getCol_select (F : Frame) (ns : List String) (h : ∀ m ∈ ns, m ∈ F.names)
    {n : String} (hn : n ∈ ns) : (F.select ns).getCol n = F.getCol n := by
  show findCol (F.select ns).cols n = _
  rw [Frame.select_cols F ns h, findCol_map_pair, if_pos hn]
  obtain ⟨d, hd⟩ := F.getCol_isSome_of_mem (h n hn)
  simp [hd]

/-! ### Lemmas about the Python list primitives and `move_col` -/

theorem pyEffIndex_natCast (len : Nat) (i : Nat) : pyEffIndex len i = i := by
  unfold pyEffIndex
  rw [if_neg (by omega)]

theorem pyPop_natCast (xs : List α) (i : Nat) (h : i < xs.length) :
    pyPop xs i = .ok (xs.get ⟨i, h⟩, xs.eraseIdx i) := by
  unfold pyPop
  rw [pyEffIndex_natCast]
  rw [if_neg (by omega)]
  simp only [Int.toNat_ofNat]
  rw [List.eraseIdx_eq_take_drop_succ]
  rw [List.drop_eq_getElem_cons h]
  simp [List.get_eq_getElem]

theorem insertIdx_take_cons_drop (xs : List α) (j : Nat) (x : α) (h : j ≤ xs.length) :
    xs.insertIdx j x = xs.take j ++ x :: xs.drop j := by
  induction xs generalizing j with
  | nil =>
    cases j with
    | zero => rfl
    | succ j' => exact absurd h (by simp)
  | cons a rest ih =>
    cases j with
    | zero => rfl
    | succ j' =>
      simp only [List.insertIdx_succ_cons, List.take_succ_cons, List.drop_succ_cons,
        List.cons_append]
      exact congrArg _ (ih j' (Nat.le_of_succ_le_succ h))

theorem pyInsert_natCast (xs : List α) (j : Nat) (x : α) (h : j ≤ xs.length) :
    pyInsert xs j x = xs.insertIdx j x := by
  unfold pyInsert
  rw [pyEffIndex_natCast]
  simp only [Int.toNat_ofNat]
  rw [Nat.min_eq_left h, insertIdx_take_cons_drop xs j x h]

theorem move_col_eq (F : Frame) (i j : Nat) (hi : i < F.names.length)
    (hj : j < F.names.length) :
    move_col F i j =
      .frame (F.select ((F.names.eraseIdx i).insertIdx j (F.names.get ⟨i, hi⟩))) := by
  show (match pyPop F.names (i : Int) with
        | .error e => PyResult.raised e
        | .ok (last_col, popped) => .frame (F.select (pyInsert popped (j : Int) last_col))) = _
  rw [pyPop_natCast F.names i hi]
  show PyResult.frame (F.select (pyInsert (F.names.eraseIdx i) (j : Int) (F.names.get ⟨i, hi⟩)))
      = _
  rw [pyInsert_natCast]
  have := List.length_eraseIdx_of_lt hi
  omega

theorem mem_eraseIdx_insertIdx_iff (l : List String) (i j : Nat) (hi : i < l.length)
    (hj : j ≤ l.length - 1) (n : String) :
    n ∈ (l.eraseIdx i).insertIdx j (l.get ⟨i, hi⟩) ↔ n ∈ l := by
  have hm := List.length_eraseIdx_of_lt hi
  rw [List.mem_insertIdx (by omega), List.eraseIdx_eq_take_drop_succ]
  conv_rhs => rw [← List.take_append_drop i l, List.drop_eq_getElem_cons hi]
  simp only [List.mem_append, List.mem_cons, List.get_eq_getElem]
  tauto

theorem insertIdx_get_eraseIdx (l : List α) (i : Nat) (hi : i < l.length) :
    (l.eraseIdx i).insertIdx i (l.get ⟨i, hi⟩) = l := by
  induction l generalizing i with
  | nil => simp at hi
  | cons x rest ih =>
    cases i with
    | zero => simp [List.insertIdx_zero]
    | succ i' =>
      simp only [List.eraseIdx_cons_succ, List.insertIdx_succ_cons, List.get_eq_getElem,
        List.getElem_cons_succ]
      exact congrArg _ (ih i' (Nat.lt_of_succ_lt_succ hi))

theorem Frame.eq_of_cols_eq {F G : Frame} (h : F.cols = G.cols) : F = G := by
  cases F; cases G; simpa using h

theorem cols_map_findCol (cols : List (String × List Val))
    (hnd : (cols.map Prod.fst).Nodup) :
    (cols.map Prod.fst).map (fun n => (n, (findCol cols n).getD [])) = cols := by
  induction cols with
  | nil => rfl
  | cons c rest ih =>
    rw [List.map_cons] at hnd
    obtain ⟨hnotin, hnd'⟩ := List.nodup_cons.mp hnd
    simp only [List.map_cons]
    rw [findCol_cons, if_pos rfl]
    simp only [Option.getD_some]
    refine congrArg₂ List.cons Prod.mk.eta ?_
    calc (rest.map Prod.fst).map (fun n => (n, (findCol (c :: rest) n).getD []))
        = (rest.map Prod.fst).map (fun n => (n, (findCol rest n).getD [])) := by
          refine List.map_congr_left (fun n hn => ?_)
          have hne : ¬ (c.1 = n) := fun h => hnotin (h ▸ hn)
          rw [findCol_cons, if_neg hne]
      _ = rest := ih hnd'

/-! ### The claims about `move_col` -/

/-- C1: for valid indices `i`, `j` (`0 ≤ i, j < N`), `move_col F i j` returns
a frame whose column order is the original order with the name at `i`
removed and reinserted at position `j` of the shortened list, and every
column's data is unchanged. -/
theorem move_col_reorders (F : Frame) (i j : Nat) (hi : i < F.names.length)
    (hj : j < F.names.length) :
    ∃ G, move_col F i j = .frame G ∧
      G.names = (F.names.eraseIdx i).insertIdx j (F.names.get ⟨i, hi⟩) ∧
      ∀ n ∈ G.names, G.getCol n = F.getCol n := by
  have hm := List.length_eraseIdx_of_lt hi
  have hsub : ∀ n ∈ (F.names.eraseIdx i).insertIdx j (F.names.get ⟨i, hi⟩), n ∈ F.names :=
    fun n hn => (mem_eraseIdx_insertIdx_iff F.names i j hi (by omega) n).mp hn
  refine ⟨F.select _, move_col_eq F i j hi hj, Frame.names_select F _ hsub, ?_⟩
  intro n hn
  rw [Frame.names_select F _ hsub] at hn
  exact Frame.getCol_select F _ hsub hn

/-- Witness for C1: on columns `[A,B,C,D]`, `move_col F 0 2` yields the
order `[B,C,A,D]` with all data intact. -/
theorem move_col_reorders_witness :
    0 < frameC1.names.length ∧ 2 < frameC1.names.length ∧
    ∃ G, move_col frameC1 0 2 = .frame G ∧
      G.names = ["B", "C", "A", "D"] ∧
      ∀ n ∈ G.names, G.getCol n = frameC1.getCol n :=
  ⟨by decide, by decide, move_col_reorders frameC1 0 2 (by decide) (by decide)⟩

/-- C9: the reverse move undoes the move: for valid `i ≠ j`,
`move_col (move_col F i j) j i` restores the original frame (column order
and data). -/
theorem move_col_reverses (F : Frame) (hwf : F.WF) (i j : Nat) (hi : i < F.names.length)
    (hj : j < F.names.length) (hij : i ≠ j) :
    ∃ G, move_col F i j = .frame G ∧ move_col G j i = .frame F := by
  have hm := List.length_eraseIdx_of_lt hi
  have hjm : j ≤ (F.names.eraseIdx i).length := by omega
  have hsub : ∀ n ∈ (F.names.eraseIdx i).insertIdx j (F.names.get ⟨i, hi⟩), n ∈ F.names :=
    fun n hn => (mem_eraseIdx_insertIdx_iff F.names i j hi (by omega) n).mp hn
  refine ⟨F.select _, move_col_eq F i j hi hj, ?_⟩
  have hGnames : (F.select ((F.names.eraseIdx i).insertIdx j (F.names.get ⟨i, hi⟩))).names
      = (F.names.eraseIdx i).insertIdx j (F.names.get ⟨i, hi⟩) :=
    Frame.names_select F _ hsub
  have hordlen : ((F.names.eraseIdx i).insertIdx j (F.names.get ⟨i, hi⟩)).length
      = F.names.length := by
    rw [List.length_insertIdx j _ hjm]; omega
  show (match pyPop (F.select _).names (j : Int) with
        | .error e => PyResult.raised e
        | .ok (last_col, popped) =>
          .frame ((F.select _).select (pyInsert popped (i : Int) last_col))) = .frame F
  rw [hGnames]
  rw [pyPop_natCast _ j (by omega)]
  show PyResult.frame ((F.select _).select (pyInsert
      (((F.names.eraseIdx i).insertIdx j (F.names.get ⟨i, hi⟩)).eraseIdx j) (i : Int)
      (((F.names.eraseIdx i).insertIdx j (F.names.get ⟨i, hi⟩)).get ⟨j, by omega⟩))) = .frame F
  rw [List.eraseIdx_insertIdx j (F.names.eraseIdx i)]
  have hget : ((F.names.eraseIdx i).insertIdx j (F.names.get ⟨i, hi⟩)).get ⟨j, by omega⟩
      = F.names.get ⟨i, hi⟩ := by
    simpa [List.get_eq_getElem] using
      List.getElem_insertIdx_self (F.names.eraseIdx i) (F.names.get ⟨i, hi⟩) j hjm
  rw [hget]
  rw [pyInsert_natCast _ i _ (by omega)]
  rw [insertIdx_get_eraseIdx F.names i hi]
  refine congrArg PyResult.frame (Frame.eq_of_cols_eq ?_)
  have hFsubG : ∀ n ∈ F.names,
      n ∈ (F.select ((F.names.eraseIdx i).insertIdx j (F.names.get ⟨i, hi⟩))).names := by
    intro n hn
    rw [hGnames]
    exact (mem_eraseIdx_insertIdx_iff F.names i j hi (by omega) n).mpr hn
  rw [Frame.select_cols _ F.names hFsubG]
  have hdata : ∀ n ∈ F.names,
      (F.select ((F.names.eraseIdx i).insertIdx j (F.names.get ⟨i, hi⟩))).getCol n
        = F.getCol n := by
    intro n hn
    exact Frame.getCol_select F _ hsub
      ((mem_eraseIdx_insertIdx_iff F.names i j hi (by omega) n).mpr hn)
  rw [List.map_congr_left (fun n hn => by rw [hdata n hn])]
  exact cols_map_findCol F.cols hwf.1

/-- Witness for C9: moving column 1 to position 3 and then 3 back to 1
restores the original 4-column frame. -/
theorem move_col_reverses_witness :
    frameC9.WF ∧ 1 < frameC9.names.length ∧ 3 < frameC9.names.length ∧ (1 : Nat) ≠ 3 ∧
    ∃ G, move_col frameC9 1 3 = .frame G ∧ move_col G 3 1 = .frame frameC9 :=
  ⟨by decide, by decide, by decide, by decide,
    move_col_reverses frameC9 (by decide) 1 3 (by decide) (by decide) (by decide)⟩

theorem pyPop_eq_error_iff (xs : List α) (i : Int) :
    pyPop xs i = .error .indexError ↔
      (i < -(xs.length : Int) ∨ (xs.length : Int) ≤ i) := by
  unfold pyPop pyEffIndex
  by_cases h0 : i < 0
  · rw [if_pos h0]
    by_cases h1 : i + (xs.length : Int) < 0
    · rw [if_pos h1]
      exact iff_of_true rfl (Or.inl (by omega))
    · rw [if_neg h1]
      cases hd : xs.drop (i + (xs.length : Int)).toNat with
      | nil => exact absurd (List.drop_eq_nil_iff.mp hd) (by omega)
      | cons y rest => exact iff_of_false (fun h => by cases h) (by omega)
  · rw [if_neg h0, if_neg h0]
    by_cases h2 : (xs.length : Int) ≤ i
    · rw [List.drop_eq_nil_of_le (show xs.length ≤ i.toNat by omega)]
      exact iff_of_true rfl (Or.inr h2)
    · cases hd : xs.drop i.toNat with
      | nil => exact absurd (List.drop_eq_nil_iff.mp hd) (by omega)
      | cons y rest => exact iff_of_false (fun h => by cases h) (by omega)

theorem pyPop_isOk_of_inrange (xs : List α) (i : Int)
    (h1 : -(xs.length : Int) ≤ i) (h2 : i < (xs.length : Int)) :
    ∃ p, pyPop xs i = .ok p := by
  unfold pyPop pyEffIndex
  by_cases h0 : i < 0
  · rw [if_pos h0, if_neg (show ¬ (i + (xs.length : Int) < 0) by omega)]
    cases hd : xs.drop (i + (xs.length : Int)).toNat with
    | nil => exact absurd (List.drop_eq_nil_iff.mp hd) (by omega)
    | cons y rest => exact ⟨_, rfl⟩
  · rw [if_neg h0, if_neg h0]
    cases hd : xs.drop i.toNat with
    | nil => exact absurd (List.drop_eq_nil_iff.mp hd) (by omega)
    | cons y rest => exact ⟨_, rfl⟩

/-- C4 (amended): `move_col` raises an index error exactly when `from_index`
is outside Python's accepted range `[-N, N)`; a negative `from_index` in
range behaves like `from_index + N` (Python wrap-around), and `to_index` is
never checked. -/
theorem move_col_bounds (F : Frame) (i j : Int) :
    (move_col F i j = .raised .indexError ↔
      (i < -(F.ncols : Int) ∨ (F.ncols : Int) ≤ i)) ∧
    (-(F.ncols : Int) ≤ i → i < 0 → move_col F i j = move_col F (i + F.ncols) j) := by
  have hlen : F.names.length = F.ncols := F.length_names
  constructor
  · show (match pyPop F.names i with
          | .error e => PyResult.raised e
          | .ok (last_col, popped) => .frame (F.select (pyInsert popped j last_col))) =
        .raised .indexError ↔ _
    by_cases hb : i < -(F.ncols : Int) ∨ (F.ncols : Int) ≤ i
    · rw [(pyPop_eq_error_iff F.names i).mpr (by omega)]
      exact iff_of_true rfl hb
    · obtain ⟨⟨y, rest⟩, hp⟩ := pyPop_isOk_of_inrange F.names i (by omega) (by omega)
      rw [hp]
      exact iff_of_false (fun h => by cases h) hb
  · intro h1 h2
    show (match pyPop F.names i with
          | .error e => PyResult.raised e
          | .ok (last_col, popped) => .frame (F.select (pyInsert popped j last_col))) =
        (match pyPop F.names (i + (F.ncols : Int)) with
          | .error e => PyResult.raised e
          | .ok (last_col, popped) => .frame (F.select (pyInsert popped j last_col)))
    have hcond : ¬ (i + (F.ncols : Int) < 0) := by omega
    have heq : pyPop F.names i = pyPop F.names (i + (F.ncols : Int)) := by
      unfold pyPop pyEffIndex
      simp only [hlen, if_pos h2, if_neg hcond]
    rw [heq]

/-- Counterexample to C4 as stated: on a 4-column frame, `move_col` with the
negative index `-1` does not raise at all — Python's `list.pop` wraps it to
index 3 and the call returns the reordered frame `[D, A, B, C]`. -/
theorem move_col_bounds_counterexample :
    move_col frameC4 (-1) 0 =
      .frame ⟨[("D", [Val.int 4]), ("A", [Val.int 1]), ("B", [Val.int 2]), ("C", [Val.int 3])]⟩ ∧
    move_col frameC4 (-1) 0 ≠ .raised .indexError := by
  refine ⟨rfl, fun h => ?_⟩
  rw [(rfl :
    move_col frameC4 (-1) 0 =
      PyResult.frame
        ⟨[("D", [Val.int 4]), ("A", [Val.int 1]), ("B", [Val.int 2]), ("C", [Val.int 3])]⟩)] at h
  cases h

/-- Witness for C4 (amended): `move_col F 5 0` on the 4-column frame raises
the index error, and in-range negative indices follow the wrap equation. -/
theorem move_col_bounds_witness :
    move_col frameC4 5 0 = .raised .indexError ∧
    move_col frameC4 (-2) 0 = move_col frameC4 2 0 :=
  ⟨(move_col_bounds frameC4 5 0).1.mpr (by decide),
    (move_col_bounds frameC4 (-2) 0).2 (by decide) (by decide)⟩

/-! ### The claims about `map_col` -/

/-- C2 (amended): mapping a column through a dictionary produces a target
column whose row `i` is `D.get(a[i], default)`, preserves the row count,
leaves every other column unchanged and in place, and puts the target
column at the end when it is new — but overwrites it in place (keeping its
original position) when a column of that name already exists. -/
theorem map_col_dict_maps (F : Frame) (hwf : F.WF) (a b : String)
    (D : List (Val × Val)) (default : Val) (da : List Val)
    (ha : F.getCol a = some da) :
    ∃ G, map_col F (.str a) (.str b) (.dict D) default = .frame G ∧
      G.getCol b = some (da.map (fun v => dictGet D v default)) ∧
      (∀ c, c ≠ b → G.getCol c = F.getCol c) ∧
      G.names = (if b ∈ F.names then F.names else F.names ++ [b]) ∧
      G.height = F.height := by
  refine ⟨F.withColumn b (da.map (fun v => dictGet D v default)), ?_,
    Frame.getCol_withColumn_self F b _,
    fun c hc => Frame.getCol_withColumn_ne F b _ hc,
    Frame.names_withColumn F b _,
    Frame.height_withColumn F b
      (by rw [List.length_map]; exact Frame.length_getCol_of_WF hwf ha)⟩
  show map_col_dict F a (.str b) D default = _
  unfold map_col_dict
  rw [ha]

/-- Witness for C2 (amended): mapping `a = [1, 3]` through `{1: 2}` with
default `0` appends `b = [2, 0]` at the end. -/
theorem map_col_dict_maps_witness :
    frameC2.WF ∧ frameC2.getCol "a" = some [Val.int 1, Val.int 3] ∧
    ∃ G, map_col frameC2 (.str "a") (.str "b")
        (.dict [(Val.int 1, Val.int 2)]) (Val.int 0) = .frame G ∧
      G.getCol "b" = some [Val.int 2, Val.int 0] ∧
      (∀ c, c ≠ "b" → G.getCol c = frameC2.getCol c) ∧
      G.names = ["a", "b"] ∧
      G.height = 2 :=
  ⟨by decide, rfl,
    map_col_dict_maps frameC2 (by decide) "a" "b" [(Val.int 1, Val.int 2)] (Val.int 0) _ rfl⟩

/-- Counterexample to C2 as stated: when the frame already has a column
`"b"` (here in front of `"a"`), the dictionary mapping overwrites `"b"` in
place, so the resulting column order is `["b", "a"]` — `"b"` is not moved to
the end. -/
theorem map_col_dict_maps_counterexample :
    map_col frameC2ce (.str "a") (.str "b") (.dict [(Val.int 1, Val.int 2)]) (Val.int 0)
      = .frame ⟨[("b", [Val.int 2]), ("a", [Val.int 1])]⟩ ∧
    (Frame.names ⟨[("b", [Val.int 2]), ("a", [Val.int 1])]⟩ ≠ ["a", "b"]) :=
  ⟨rfl, by decide⟩

/-- C10: mapping a column through a pure function (1→1 mode) produces a
target column whose row `i` is `f(a[i])`, with the output row count equal to
the input row count. -/
theorem map_col_1to1_maps (F : Frame) (hwf : F.WF) (a b : String) (f : Val → Val)
    (default : Val) (da : List Val) (ha : F.getCol a = some da) :
    ∃ G, map_col F (.str a) (.str b) (.fn f) default = .frame G ∧
      G.getCol b = some (da.map f) ∧
      G.height = F.height := by
  refine ⟨F.withColumn b (da.map f), ?_,
    Frame.getCol_withColumn_self F b _,
    Frame.height_withColumn F b
      (by rw [List.length_map]; exact Frame.length_getCol_of_WF hwf ha)⟩
  show map_1to1_function F a b f = _
  unfold map_1to1_function
  rw [ha]

/-- Witness for C10: mapping `a = [1, 2]` through `x ↦ x + 1` yields
`b = [2, 3]` with 2 rows. -/
theorem map_col_1to1_maps_witness :
    frameC10.WF ∧ frameC10.getCol "a" = some [Val.int 1, Val.int 2] ∧
    ∃ G, map_col frameC10 (.str "a") (.str "b")
        (.fn (fun v => match v with | .int n => .int (n + 1) | w => w)) Val.vnone = .frame G ∧
      G.getCol "b" = some [Val.int 2, Val.int 3] ∧
      G.height = 2 :=
  ⟨by decide, rfl,
    map_col_1to1_maps frameC10 (by decide) "a" "b"
      (fun v => match v with | .int n => .int (n + 1) | w => w) Val.vnone _ rfl⟩

/-- C5 (amended): when the mapping rule is neither a dictionary nor
callable, `map_col` matches no dispatch branch and falls off the end of the
function, returning `None` — it does not raise anything. -/
theorem map_col_other_returns_none (df : Frame) (map_from map_to : ColSpec) (default : Val) :
    map_col df map_from map_to .other default = .noneVal :=
  rfl

/-- Counterexample to C5 as stated: with a rule that is neither a dict nor
callable, `map_col` returns `None` normally instead of raising the
`InvalidArgument` (`ValueError`) error. -/
theorem map_col_other_counterexample :
    map_col frameC5 (.str "a") (.str "b") .other Val.vnone = .noneVal ∧
    map_col frameC5 (.str "a") (.str "b") .other Val.vnone ≠ .raised .valueError :=
  ⟨rfl, fun h => nomatch h⟩

/-- C6 (amended): with a dictionary rule and a list of target columns,
`map_col` fails — but with the host library's `TypeError` (from
`alias` being handed a list), not with the explicit `InvalidArgument`
(`ValueError`) check; no frame is produced. -/
theorem map_col_dict_list_target_raises (df : Frame) (c : String) (ts : List String)
    (D : List (Val × Val)) (default : Val) :
    map_col df (.str c) (.list ts) (.dict D) default = .raised .typeError :=
  rfl

/-- Counterexample to C6 as stated: a dictionary rule with a list target
raises the library `TypeError`, which is not the `InvalidArgument`
(`ValueError`) error the claim names. -/
theorem map_col_dict_list_target_counterexample :
    map_col frameC6 (.str "a") (.list ["x", "y"]) (.dict [(Val.int 1, Val.int 2)]) Val.vnone
      = .raised .typeError ∧
    map_col frameC6 (.str "a") (.list ["x", "y"]) (.dict [(Val.int 1, Val.int 2)]) Val.vnone
      ≠ .raised .valueError :=
  ⟨rfl, fun h => nomatch h⟩

/-- C7: M→N mode (callable rule, list sources, list targets) always raises
`NotImplementedError`, for every frame and all M, N. -/
theorem map_col_ntom_not_implemented (df : Frame) (cs ts : List String) (f : Val → Val)
    (default : Val) :
    map_col df (.list cs) (.list ts) (.fn f) default = .raised .notImplementedError :=
  rfl

/-- C8: a dictionary rule with a list of source columns raises the
`InvalidArgument` (`ValueError`) error immediately, for every frame and
every target argument — no row is ever processed. -/
theorem map_col_dict_list_source_raises (df : Frame) (cs : List String) (map_to : ColSpec)
    (D : List (Val × Val)) (default : Val) :
    map_col df (.list cs) map_to (.dict D) default = .raised .valueError :=
  rfl

/-! ### 1→N mode: result-shape behaviour (C3) -/

theorem pyIndex_list (xs : List Val) (i : Nat) :
    pyIndex (.list xs) i = (match xs.drop i with
      | [] => Except.error Err.indexError
      | y :: _ => Except.ok y) := rfl

theorem pyIndex_ok_of_lt {v : Val} (hv : v.isList = true) {i : Nat} (h : i < v.listLen) :
    ∃ w, pyIndex v i = .ok w := by
  cases v <;> simp [Val.isList] at hv
  case list xs =>
    simp only [Val.listLen] at h
    rw [pyIndex_list]
    cases hd : xs.drop i with
    | nil => exact absurd (List.drop_eq_nil_iff.mp hd) (by omega)
    | cons y rest => exact ⟨y, rfl⟩

theorem pyIndex_err_of_ge {v : Val} (hv : v.isList = true) {i : Nat} (h : v.listLen ≤ i) :
    pyIndex v i = .error .indexError := by
  cases v <;> simp [Val.isList] at hv
  case list xs =>
    simp only [Val.listLen] at h
    rw [pyIndex_list, List.drop_eq_nil_of_le h]

theorem exceptMap_ok {g : Val → Except Err Val} {rs : List Val}
    (h : ∀ r ∈ rs, ∃ v, g r = .ok v) : ∃ vs, exceptMap g rs = .ok vs := by
  induction rs with
  | nil => exact ⟨[], rfl⟩
  | cons r rest ih =>
    obtain ⟨v, hv⟩ := h r (List.mem_cons_self r rest)
    obtain ⟨vs, hvs⟩ := ih (fun x hx => h x (List.mem_cons_of_mem r hx))
    exact ⟨v :: vs, by unfold exceptMap; rw [hv, hvs]⟩

theorem exceptMap_err {g : Val → Except Err Val} {rs : List Val}
    (hall : ∀ r ∈ rs, (∃ v, g r = .ok v) ∨ g r = .error .indexError)
    (hex : ∃ r ∈ rs, g r = .error .indexError) :
    exceptMap g rs = .error .indexError := by
  induction rs with
  | nil => obtain ⟨r, hr, _⟩ := hex; cases hr
  | cons r rest ih =>
    rcases hall r (List.mem_cons_self r rest) with ⟨v, hv⟩ | herr
    · have hex' : ∃ x ∈ rest, g x = .error .indexError := by
        obtain ⟨x, hx, hgx⟩ := hex
        rcases List.mem_cons.mp hx with rfl | hx'
        · rw [hv] at hgx; cases hgx
        · exact ⟨x, hx', hgx⟩
      have htail := ih (fun x hx => hall x (List.mem_cons_of_mem r hx)) hex'
      unfold exceptMap
      rw [hv, htail]
    · unfold exceptMap
      rw [herr]

theorem buildCols_ok (results : List Val) :
    ∀ (ts : List String) (i : Nat),
      (∀ r ∈ results, r.isList = true ∧ i + ts.length ≤ r.listLen) →
      ∃ cols, buildCols results ts i = .ok cols := by
  intro ts
  induction ts with
  | nil => exact fun i _ => ⟨[], rfl⟩
  | cons t rest ih =>
    intro i h
    obtain ⟨col, hcol⟩ := @exceptMap_ok (fun r => pyIndex r i) results
      (fun r hr => pyIndex_ok_of_lt (h r hr).1
        (by have := (h r hr).2; simp only [List.length_cons] at this; omega))
    obtain ⟨tail, htail⟩ := ih (i + 1)
      (fun r hr => ⟨(h r hr).1,
        by have := (h r hr).2; simp only [List.length_cons] at this; omega⟩)
    exact ⟨(t, col) :: tail, by unfold buildCols; rw [hcol, htail]⟩

theorem buildCols_err (results : List Val) (hl : ∀ r ∈ results, r.isList = true) :
    ∀ (ts : List String) (i : Nat),
      (∃ r ∈ results, r.listLen < i + ts.length) → 0 < ts.length →
      buildCols results ts i = .error .indexError := by
  intro ts
  induction ts with
  | nil => intro i _ hne; simp at hne
  | cons t rest ih =>
    intro i hex _
    by_cases hshort : ∃ r ∈ results, r.listLen ≤ i
    · have hmap : exceptMap (fun r => pyIndex r i) results = .error .indexError :=
        exceptMap_err
          (fun r hr => by
            by_cases hlen : r.listLen ≤ i
            · exact Or.inr (pyIndex_err_of_ge (hl r hr) hlen)
            · exact Or.inl (pyIndex_ok_of_lt (hl r hr) (by omega)))
          (by obtain ⟨r, hr, hri⟩ := hshort
              exact ⟨r, hr, pyIndex_err_of_ge (hl r hr) hri⟩)
      unfold buildCols
      rw [hmap]
    · push_neg at hshort
      obtain ⟨col, hcol⟩ := @exceptMap_ok (fun r => pyIndex r i) results
        (fun r hr => pyIndex_ok_of_lt (hl r hr) (hshort r hr))
      cases rest with
      | nil =>
        obtain ⟨r, hr, hlt⟩ := hex
        have := hshort r hr
        simp only [List.length_cons, List.length_nil] at hlt
        omega
      | cons t2 rest2 =>
        have htail := ih (i + 1)
          (by obtain ⟨r, hr, hlt⟩ := hex
              refine ⟨r, hr, ?_⟩
              simp only [List.length_cons] at hlt ⊢
              omega)
          (by simp)
        unfold buildCols
        rw [hcol, htail]

/-- C3 (amended): in 1→N mode (callable rule, single source, N target
columns), when the callable returns a sequence for every row, the call fails
— with Python's `IndexError`, there is no `ShapeMismatch` check — exactly
when some row's sequence is shorter than N; rows whose sequences are longer
than N do not fail: their extra elements are silently dropped and a frame is
returned. -/
theorem map_col_1ton_shape (F : Frame) (c : String) (ts : List String) (f : Val → Val)
    (default : Val) (da : List Val) (ha : F.getCol c = some da)
    (hl : ∀ v ∈ da, (f v).isList = true) :
    ((∃ v ∈ da, (f v).listLen < ts.length) →
      map_col F (.str c) (.list ts) (.fn f) default = .raised .indexError) ∧
    ((∀ v ∈ da, ts.length ≤ (f v).listLen) →
      ∃ G, map_col F (.str c) (.list ts) (.fn f) default = .frame G) := by
  have hl' : ∀ r ∈ da.map f, r.isList = true := by
    intro r hr
    obtain ⟨v, hv, rfl⟩ := List.mem_map.mp hr
    exact hl v hv
  constructor
  · intro hex
    obtain ⟨v, hv, hlen⟩ := hex
    have herr := buildCols_err (da.map f) hl' ts 0
      ⟨f v, List.mem_map_of_mem f hv, by omega⟩ (by omega)
    show map_1ton_function F c ts f = _
    unfold map_1ton_function
    rw [ha]
    show (match buildCols (da.map f) ts 0 with
      | .error e => PyResult.raised e
      | .ok newCols => PyResult.frame (newCols.foldl (fun (H : Frame) (p : String × List Val) => H.withColumn p.1 p.2) F)) = _
    rw [herr]
  · intro hall
    obtain ⟨cols, hcols⟩ := buildCols_ok (da.map f) ts 0
      (fun r hr => ⟨hl' r hr, by
        obtain ⟨v, hv, rfl⟩ := List.mem_map.mp hr
        have := hall v hv
        omega⟩)
    refine ⟨cols.foldl (fun (H : Frame) (p : String × List Val) => H.withColumn p.1 p.2) F, ?_⟩
    show map_1ton_function F c ts f = _
    unfold map_1ton_function
    rw [ha]
    show (match buildCols (da.map f) ts 0 with
      | .error e => PyResult.raised e
      | .ok newCols => PyResult.frame (newCols.foldl (fun (H : Frame) (p : String × List Val) => H.withColumn p.1 p.2) F)) = _
    rw [hcols]

/-- Witness for C3 (amended): with `f x = [x]` (length 1) and two target
columns, the call raises the index error. -/
theorem map_col_1ton_shape_witness :
    frameC3.getCol "a" = some [Val.int 1] ∧
    (∀ v ∈ [Val.int 1], (Val.list [v]).isList = true) ∧
    (∃ v ∈ [Val.int 1], (Val.list [v]).listLen < (["y", "z"] : List String).length) ∧
    map_col frameC3 (.str "a") (.list ["y", "z"]) (.fn (fun v => .list [v])) Val.vnone
      = .raised .indexError :=
  ⟨rfl, by decide, ⟨Val.int 1, List.mem_cons_self (Val.int 1) [], by decide⟩,
    (map_col_1ton_shape frameC3 "a" ["y", "z"] (fun v => .list [v]) Val.vnone [Val.int 1]
      rfl (by decide)).1 ⟨Val.int 1, List.mem_cons_self (Val.int 1) [], by decide⟩⟩

/-- Counterexample to C3 as stated: a callable returning length-3 sequences
with only 2 target columns does not fail at all — the call returns a frame,
silently truncating each row's result to its first 2 elements. -/
theorem map_col_1ton_shape_counterexample :
    map_col frameC3 (.str "a") (.list ["y", "z"]) (.fn (fun v => .list [v, v, v])) Val.vnone
      = .frame ⟨[("a", [Val.int 1]), ("y", [Val.int 1]), ("z", [Val.int 1])]⟩ ∧
    map_col frameC3 (.str "a") (.list ["y", "z"]) (.fn (fun v => .list [v, v, v])) Val.vnone
      ≠ .raised .indexError :=
  ⟨rfl, fun h => nomatch h⟩

end PolarsUtils
